import Mathlib

/-!
A verification development for the Supadata request gateway
(`supadata/client.py`): API-key validation at construction, the recursive
camelCase-to-snake_case key normalizer `_camel_to_snake`, and the dispatch
pipeline `_request` with its gateway short-circuit, transcript 206 rule and
generic success/failure handling.

The embedding works on the ASCII fragment: the regex character classes
`[A-Z]`, `[a-z]`, `[0-9]` of the source are exactly ASCII, and `str.lower`
is modelled on ASCII letters (non-ASCII letters pass through unchanged).
Machine strings are `List Char`; JSON documents are the inductive `JsonVal`;
Python dict semantics (insertion order, overwrite-in-place on duplicate
keys) are modelled explicitly by `insertKV`.
-/

/-- ASCII lowercase letter, the regex class `[a-z]`. -/
def isLo (c : Char) : Bool := decide (97 ≤ c.toNat ∧ c.toNat ≤ 122)

/-- ASCII uppercase letter, the regex class `[A-Z]`. -/
def isUp (c : Char) : Bool := decide (65 ≤ c.toNat ∧ c.toNat ≤ 90)

/-- ASCII lowercase letter or digit, the regex class `[a-z0-9]`. -/
def isLoD (c : Char) : Bool :=
  isLo c || decide (48 ≤ c.toNat ∧ c.toNat ≤ 57)

/-- ASCII lowering of one character, the fragment of Python `str.lower`
used on keys. -/
def toLow (c : Char) : Char :=
  if isUp c then Char.ofNat (c.toNat + 32) else c

/-- Does the list start with a lowercase letter? -/
def headLo : List Char → Bool
  | d :: _ => isLo d
  | [] => false

/-- Left-to-right scan implementing Python
`re.sub('(.)([A-Z][a-z]+)', '\x5c1_\x5c2', name)`: non-overlapping
leftmost matches, greedy `[a-z]+`.  The flag is `true` when the current
position may start a new match and `false` while the scanner is inside the
lowercase run consumed by the previous match (`.` does not match a
newline). -/
def scan : Bool → List Char → List Char
  | _, [] => []
  | _, [c] => [c]
  | free, c :: u :: rest =>
    if !free && isLo c then c :: scan false (u :: rest)
    else if c != '\n' && isUp u && headLo rest then
      c :: '_' :: u :: scan false rest
    else c :: scan true (u :: rest)

/-- First substitution pass of the source's `convert`. -/
def sub1 (s : List Char) : List Char := scan true s

/-- Second substitution pass,
`re.sub('([a-z0-9])([A-Z])', '\x5c1_\x5c2', name)`: each match consumes the
lowercase-or-digit character and the following uppercase character. -/
def sub2 : List Char → List Char
  | [] => []
  | [c] => [c]
  | c :: u :: rest =>
    if isLoD c && isUp u then c :: '_' :: u :: sub2 rest
    else c :: sub2 (u :: rest)

/-- The source's per-key `convert`: the two regex passes, then `.lower()`. -/
def convert (s : List Char) : List Char := (sub2 (sub1 s)).map toLow

/-- Does the list start with a capitalized multi-letter word, i.e. an
uppercase letter immediately followed by a lowercase letter? -/
def capWordStart : List Char → Bool
  | u :: d :: _ => isUp u && isLo d
  | _ => false

/-- Does the list start with an uppercase letter? -/
def headUp : List Char → Bool
  | u :: _ => isUp u
  | [] => false

/-- Reference rule, first pass: simultaneously insert a separator between
any character (a regex `.`, hence not a newline) and a following
capitalized multi-letter word. -/
def specPassOne : List Char → List Char
  | [] => []
  | c :: cs =>
    if capWordStart cs && c != '\n' then c :: '_' :: specPassOne cs
    else c :: specPassOne cs

/-- Reference rule, second pass: simultaneously insert a separator between
a lowercase letter or digit and an immediately following uppercase
letter. -/
def specPassTwo : List Char → List Char
  | [] => []
  | c :: cs =>
    if isLoD c && headUp cs then c :: '_' :: specPassTwo cs
    else c :: specPassTwo cs

/-- The reference two-pass camel-to-snake rule stated by the spec: first
pass, second pass, then lowercase everything. -/
def convertSpec (s : List Char) : List Char :=
  (specPassTwo (specPassOne s)).map toLow

/-- One-pass characterization used as a bridge between the sequential
`re.sub` semantics and the simultaneous reference rule: a separator goes
between adjacent characters exactly when the second-pass condition or the
first-pass condition holds for them in the original string. -/
def combined : List Char → List Char
  | [] => []
  | c :: cs =>
    if (isLoD c && headUp cs) || (capWordStart cs && c != '\n') then
      c :: '_' :: combined cs
    else c :: combined cs

/-- JSON-like documents: the values `_camel_to_snake` recurses over. -/
inductive JsonVal where
  | null : JsonVal
  | bool : Bool → JsonVal
  | num : Int → JsonVal
  | str : List Char → JsonVal
  | arr : List JsonVal → JsonVal
  | obj : List (List Char × JsonVal) → JsonVal
deriving Repr

/-- Python dict assignment `d[k] = v` on an insertion-ordered association
list: an existing key keeps its position and gets the new value, a fresh
key is appended. -/
def insertKV : List (List Char × JsonVal) → List Char → JsonVal →
    List (List Char × JsonVal)
  | [], k, v => [(k, v)]
  | (k0, v0) :: rest, k, v =>
    if k0 = k then (k0, v) :: rest else (k0, v0) :: insertKV rest k v

mutual

/-- The source's `_camel_to_snake`: dicts get their keys converted (dict
comprehension semantics, later duplicate wins) and values recursed;
lists map; scalars pass through. -/
def camelToSnake : JsonVal → JsonVal
  | .null => .null
  | .bool b => .bool b
  | .num n => .num n
  | .str s => .str s
  | .arr xs => .arr (camelArr xs)
  | .obj kvs => .obj (camelObj kvs [])

/-- Elementwise recursion of `_camel_to_snake` over a JSON array. -/
def camelArr : List JsonVal → List JsonVal
  | [] => []
  | x :: xs => camelToSnake x :: camelArr xs

/-- The dict comprehension of `_camel_to_snake`: fold the entries in
order into a fresh dict under `insertKV`. -/
def camelObj : List (List Char × JsonVal) → List (List Char × JsonVal) →
    List (List Char × JsonVal)
  | [], acc => acc
  | (k, v) :: rest, acc => camelObj rest (insertKV acc (convert k) (camelToSnake v))

end

/-- Is the needle a contiguous substring of the hay?  Python's
`needle in hay` on strings (the empty needle is always contained). -/
def startsWith : List Char → List Char → Bool
  | [], _ => true
  | _ :: _, [] => false
  | a :: as, b :: bs => a = b && startsWith as bs

/-- Substring containment, Python `needle in hay` for strings. -/
def hasSub : List Char → List Char → Bool
  | needle, [] => startsWith needle []
  | needle, c :: rest => startsWith needle (c :: rest) || hasSub needle rest

/-- Python `str.strip` whitespace set (ASCII fragment). -/
def isWs (c : Char) : Bool :=
  c = ' ' || c = '\t' || c = '\n' || c = '\r' || c = '\x0b' || c = '\x0c'

/-- Python `str.strip()`: drop whitespace from both ends. -/
def pyStrip (s : List Char) : List Char :=
  ((s.dropWhile isWs).reverse.dropWhile isWs).reverse

/-- Modelled from the spec: `errors.SupadataError` (not under `src/`), the
raised Structured Error carrying `code`, `title` and `description`. -/
structure SupadataError where
  code : String
  title : String
  description : String
deriving Repr, DecidableEq

/-- The source's `_handle_gateway_error`: for 403/404/429 it raises a
`SupadataError` fixed by status code, with the given gateway text as
description when non-empty and a fixed fallback otherwise; for any other
status it returns without raising (`none`). -/
def handleGatewayError (statusCode : Nat) (errorText : String) :
    Option SupadataError :=
  if statusCode = 403 then
    some ⟨"invalid-request", "Invalid or missing API key",
      if errorText = "" then "Please ensure you have provided a valid API key"
      else errorText⟩
  else if statusCode = 404 then
    some ⟨"invalid-request", "Endpoint does not exist",
      if errorText = "" then
        "The API endpoint you are trying to access does not exist"
      else errorText⟩
  else if statusCode = 429 then
    some ⟨"limit-exceeded", "Limit exceeded",
      if errorText = "" then
        "You have exceeded the allowed request rate or quota limits"
      else errorText⟩
  else none

/-- The validation in `Supadata.__init__`: an empty key, or one whose
whitespace-stripped form has fewer than 8 characters, raises the 403
gateway error with text "Invalid API key format"; otherwise construction
succeeds (`none`).  No network request is involved: the check precedes the
creation of the HTTP session. -/
def initClient (apiKey : String) : Option SupadataError :=
  if apiKey.data = [] ∨ (pyStrip apiKey.data).length < 8 then
    handleGatewayError 403 "Invalid API key format"
  else none

/-- Modelled from the spec: `types.Error` (not under `src/`), the
structured API error record with exactly the fields `code`, `title` and
`description`; values are arbitrary JSON (dataclass fields are not
type-checked at run time). -/
structure Error where
  code : JsonVal
  title : JsonVal
  description : JsonVal
deriving Repr

/-- Key lookup in a JSON object (association list). -/
def findVal : List (List Char × JsonVal) → List Char → Option JsonVal
  | [], _ => none
  | (k, v) :: rest, key => if k = key then some v else findVal rest key

/-- Key membership in a JSON object. -/
def hasKey : List (List Char × JsonVal) → List Char → Bool
  | [], _ => false
  | (k, _) :: rest, key => k = key || hasKey rest key

/-- Python `==` between a JSON value and a string: true only for an equal
string. -/
def isStrEq : JsonVal → List Char → Bool
  | .str s, key => s = key
  | _, _ => false

/-- Python `key in x` for a decoded JSON value `x`: key membership on a
dict, element equality on a list, substring test on a string, and a
`TypeError` (`Except.error`) on non-container values. -/
def pyContains : JsonVal → List Char → Except Unit Bool
  | .obj kvs, key => .ok (hasKey kvs key)
  | .arr xs, key => .ok (xs.any (fun x => isStrEq x key))
  | .str s, key => .ok (hasSub key s)
  | _, _ => .error ()

/-- Python `x[key]` with a string key: dict lookup; on a list or string it
raises a `TypeError`, and likewise on scalars. -/
def pyGetItem : JsonVal → List Char → Except Unit JsonVal
  | .obj kvs, key =>
    match findVal kvs key with
    | some v => .ok v
    | none => .error ()
  | _, _ => .error ()

/-- `Error(**error_data)`: keyword unpacking of the normalized mapping into
the fixed-shape record.  It succeeds exactly when the value is a mapping
whose keys are precisely `code`, `title` and `description`; a missing or
extra key, or a non-mapping value, is the `TypeError`/`ValueError` that the
source catches (`none`). -/
def constructError : JsonVal → Option Error
  | .obj kvs =>
    match findVal kvs "code".data, findVal kvs "title".data,
        findVal kvs "description".data with
    | some c, some t, some d =>
      if kvs.all (fun kv =>
          kv.1 = "code".data ∨ kv.1 = "title".data ∨ kv.1 = "description".data)
      then some ⟨c, t, d⟩ else none
    | _, _, _ => none
  | _ => none

/-- The observable parts of an HTTP response consumed by `_request`:
status code, declared content type (`headers.get('content-type', '')`),
raw body text (`response.text`), and the result of `response.json()`
(`none` when the body is not valid JSON, in which case `.json()` raises a
`ValueError`). -/
structure Response where
  statusCode : Nat
  contentType : String
  text : String
  jsonBody : Option JsonVal

/-- How a `_request` call terminates. -/
inductive Outcome where
  /-- Normal return: the normalized JSON body. -/
  | success : JsonVal → Outcome
  /-- `SupadataError` raised by `_handle_gateway_error`. -/
  | gatewayError : SupadataError → Outcome
  /-- `HTTPError(error_data['error'])` on the transcript 206 path. -/
  | transcriptError : JsonVal → Outcome
  /-- `HTTPError("No transcript available")` on the transcript 206 path. -/
  | transcriptMsgError : String → Outcome
  /-- `HTTPError(Error(...))` built from a parsed JSON error body. -/
  | structuredError : Error → Outcome
  /-- The original `HTTPError` from `raise_for_status`, re-raised. -/
  | transportError : Nat → Outcome
  /-- `ValueError` from `response.json()` on a body that is not JSON. -/
  | jsonDecodeError : Outcome
  /-- `TypeError` from `'error' in x` or `x['error']` on a non-dict. -/
  | typeError : Outcome

/-- The source's `_request`, as a function of the request path and the
received response.  Branches in source order: the gateway short-circuit
for 403/404/429 without a JSON content type, the transcript 206 rule,
then `raise_for_status` (an `HTTPError` exactly for 4xx/5xx) with the
generic JSON error translation on failure. -/
def dispatch (path : String) (r : Response) : Outcome :=
  match (if (r.statusCode = 403 ∨ r.statusCode = 404 ∨ r.statusCode = 429) ∧
      ¬ hasSub "application/json".data r.contentType.data = true then
      handleGatewayError r.statusCode r.text
    else none) with
  | some e => .gatewayError e
  | none =>
    if r.statusCode = 206 ∧ hasSub "/transcript".data path.data = true then
      match r.jsonBody with
      | none => .jsonDecodeError
      | some j =>
        let ed := camelToSnake j
        match pyContains ed "error".data with
        | .error _ => .typeError
        | .ok true =>
          match pyGetItem ed "error".data with
          | .ok v => .transcriptError v
          | .error _ => .typeError
        | .ok false => .transcriptMsgError "No transcript available"
    else if 400 ≤ r.statusCode ∧ r.statusCode < 600 then
      match r.jsonBody with
      | none => .transportError r.statusCode
      | some j =>
        match constructError (camelToSnake j) with
        | some e => .structuredError e
        | none => .transportError r.statusCode
    else
      match r.jsonBody with
      | none => .jsonDecodeError
      | some j => .success (camelToSnake j)

/-- The entry list of a JSON object (and `[]` on other values). -/
def objEntries : JsonVal → List (List Char × JsonVal)
  | .obj kvs => kvs
  | _ => []

theorem pyStrip_nil : pyStrip [] = [] := rfl

/-- C5: construction with an API key that is empty or shorter than 8
characters after trimming whitespace fails with the structured error
`invalid-request` / "Invalid or missing API key" (raised before the HTTP
session exists, hence before any network call), and an 8-character
post-trim key succeeds. -/
theorem C5_init_validation (k : String) :
    (initClient k =
        some ⟨"invalid-request", "Invalid or missing API key",
          "Invalid API key format"⟩
      ↔ (pyStrip k.data).length < 8)
    ∧ (initClient k = none ↔ 8 ≤ (pyStrip k.data).length) := by
  have hempty : k.data = [] → (pyStrip k.data).length < 8 := by
    intro h
    rw [h, pyStrip_nil]
    decide
  by_cases hs : (pyStrip k.data).length < 8
  · have : initClient k =
        some ⟨"invalid-request", "Invalid or missing API key",
          "Invalid API key format"⟩ := by
      unfold initClient handleGatewayError
      rw [if_pos (Or.inr hs)]
      simp
    constructor
    · simpa [this] using hs
    · simp [this]
      omega
  · have : initClient k = none := by
      unfold initClient
      rw [if_neg]
      rintro (h | h)
      · exact hs (hempty h)
      · exact hs h
    constructor
    · simp [this]
      omega
    · simp [this]
      omega

theorem hasSub_eq_false_of_not_true {needle hay : List Char}
    (h : ¬ hasSub needle hay = true) : hasSub needle hay = false :=
  Bool.not_eq_true _ ▸ (Bool.eq_false_iff.mpr h)

/-- C6: a 403/404/429 response whose content type does not include
`application/json` short-circuits to the `SupadataError` fixed by status
code, with the response body text as description when non-empty and the
per-status fallback message otherwise. -/
theorem C6_gateway_short_circuit (path : String) (r : Response)
    (hst : r.statusCode = 403 ∨ r.statusCode = 404 ∨ r.statusCode = 429)
    (hct : hasSub "application/json".data r.contentType.data = false) :
    dispatch path r = .gatewayError
      ⟨if r.statusCode = 429 then "limit-exceeded" else "invalid-request",
       if r.statusCode = 403 then "Invalid or missing API key"
       else if r.statusCode = 404 then "Endpoint does not exist"
       else "Limit exceeded",
       if r.text = "" then
         (if r.statusCode = 403 then
            "Please ensure you have provided a valid API key"
          else if r.statusCode = 404 then
            "The API endpoint you are trying to access does not exist"
          else "You have exceeded the allowed request rate or quota limits")
       else r.text⟩ := by
  have hct' : ¬ hasSub "application/json".data r.contentType.data = true := by
    simp [hct]
  rcases hst with h | h | h <;>
    simp [dispatch, handleGatewayError, h, hct']

theorem C6_witness :
    dispatch "/x" ⟨403, "text/plain", "forbidden", none⟩ =
      .gatewayError
        ⟨"invalid-request", "Invalid or missing API key", "forbidden"⟩ := by
  have h := C6_gateway_short_circuit "/x" ⟨403, "text/plain", "forbidden", none⟩
    (Or.inl rfl) (by decide)
  simpa using h

/-- C8: on a 4xx/5xx response not taken by the gateway short-circuit
(and the transcript rule, which needs status 206 and so cannot apply),
whenever the body is not a JSON object carrying exactly the normalized
`code`/`title`/`description` fields — not valid JSON, not an object, or an
object with missing or extra fields — the original transport-level error
is re-raised unchanged. -/
theorem C8_transport_reraise (path : String) (r : Response)
    (h4 : 400 ≤ r.statusCode) (h6 : r.statusCode < 600)
    (hgw : ¬((r.statusCode = 403 ∨ r.statusCode = 404 ∨ r.statusCode = 429) ∧
      hasSub "application/json".data r.contentType.data = false))
    (hbody : ∀ j, r.jsonBody = some j → constructError (camelToSnake j) = none) :
    dispatch path r = .transportError r.statusCode := by
  have hcond : ¬((r.statusCode = 403 ∨ r.statusCode = 404 ∨ r.statusCode = 429) ∧
      ¬ hasSub "application/json".data r.contentType.data = true) := by
    rintro ⟨hs, hc⟩
    exact hgw ⟨hs, hasSub_eq_false_of_not_true hc⟩
  have h206 : ¬(r.statusCode = 206 ∧
      hasSub "/transcript".data path.data = true) := by
    rintro ⟨h, -⟩
    omega
  rw [dispatch, if_neg hcond, if_neg h206, if_pos ⟨h4, h6⟩]
  cases hb : r.jsonBody with
  | none => rfl
  | some j => simp only [hbody j hb]

theorem C8_witness :
    dispatch "/x" ⟨500, "application/json", "oops", none⟩ =
      .transportError 500 := by
  have h := C8_transport_reraise "/x" ⟨500, "application/json", "oops", none⟩
    (by decide) (by decide) (by decide) (by intro j hj; cases hj)
  simpa using h

/-- C9: every response with a 2xx status, other than a 206 on a transcript
path, succeeds: the JSON body is returned with its keys recursively
normalized. -/
theorem C9_success (path : String) (r : Response) (j : JsonVal)
    (h2 : 200 ≤ r.statusCode) (h3 : r.statusCode < 300)
    (hnt : ¬(r.statusCode = 206 ∧ hasSub "/transcript".data path.data = true))
    (hj : r.jsonBody = some j) :
    dispatch path r = .success (camelToSnake j) := by
  have hcond : ¬((r.statusCode = 403 ∨ r.statusCode = 404 ∨ r.statusCode = 429) ∧
      ¬ hasSub "application/json".data r.contentType.data = true) := by
    rintro ⟨hs, -⟩
    rcases hs with h | h | h <;> omega
  have h4 : ¬(400 ≤ r.statusCode ∧ r.statusCode < 600) := by
    rintro ⟨h, -⟩
    omega
  rw [dispatch, if_neg hcond, if_neg hnt, if_neg h4, hj]

theorem C9_witness :
    dispatch "/x" ⟨200, "application/json", "",
      some (.obj [("videoTitle".data, .str "Foo".data),
        ("items".data, .arr [.obj [("viewCount".data, .num 5)]])])⟩ =
    .success (.obj [("video_title".data, .str "Foo".data),
      ("items".data, .arr [.obj [("view_count".data, .num 5)]])]) := by
  have h := C9_success "/x" ⟨200, "application/json", "",
      some (.obj [("videoTitle".data, .str "Foo".data),
        ("items".data, .arr [.obj [("viewCount".data, .num 5)]])])⟩
    (.obj [("videoTitle".data, .str "Foo".data),
      ("items".data, .arr [.obj [("viewCount".data, .num 5)]])])
    (by decide) (by decide) (by decide) rfl
  exact h.trans (by rfl)

/-- C10: body parsing is unguarded on the success and transcript paths —
when `response.json()` fails (the body is not valid JSON), a 2xx
non-transcript-206 response and a transcript-path 206 response both raise
the underlying JSON decode `ValueError`, not a structured error, a
transport error, or the generic transcript message. -/
theorem C10_unguarded_json (path : String) (r : Response)
    (hb : r.jsonBody = none)
    (h : (200 ≤ r.statusCode ∧ r.statusCode < 300 ∧
        ¬(r.statusCode = 206 ∧ hasSub "/transcript".data path.data = true)) ∨
      (r.statusCode = 206 ∧ hasSub "/transcript".data path.data = true)) :
    dispatch path r = .jsonDecodeError := by
  have hcond : ¬((r.statusCode = 403 ∨ r.statusCode = 404 ∨ r.statusCode = 429) ∧
      ¬ hasSub "application/json".data r.contentType.data = true) := by
    rintro ⟨hs, -⟩
    rcases h with ⟨h2, h3, -⟩ | ⟨h2, -⟩ <;> rcases hs with h | h | h <;> omega
  rcases h with ⟨h2, h3, hnt⟩ | ⟨h206, hp⟩
  · have h4 : ¬(400 ≤ r.statusCode ∧ r.statusCode < 600) := by
      rintro ⟨h, -⟩
      omega
    rw [dispatch, if_neg hcond, if_neg hnt, if_neg h4, hb]
  · rw [dispatch, if_neg hcond, if_pos ⟨h206, hp⟩, hb]

theorem C10_witness :
    dispatch "/a/transcript" ⟨206, "text/html", "<html>", none⟩ =
      .jsonDecodeError := by
  have h := C10_unguarded_json "/a/transcript" ⟨206, "text/html", "<html>", none⟩
    rfl (Or.inr ⟨rfl, by decide⟩)
  simpa using h

theorem hasKey_eq_isSome_findVal (l : List (List Char × JsonVal))
    (key : List Char) : hasKey l key = (findVal l key).isSome := by
  induction l with
  | nil => rfl
  | cons kv rest ih =>
    obtain ⟨k, v⟩ := kv
    by_cases h : k = key <;> simp [hasKey, findVal, h, ih]

theorem camelToSnake_obj (kvs : List (List Char × JsonVal)) :
    camelToSnake (.obj kvs) = .obj (camelObj kvs []) := by
  rw [camelToSnake]

/-- C1 counterexample: a 429 response with a JSON content type and body
`\x7b"error": \x7b"code": "limit-exceeded", "title": "x", "description":
"y"\x7d\x7d` does skip the short-circuit, but the normalized top-level
fields (a single `error` key) cannot construct the structured error
record, so the original transport error is re-raised — not the structured
error built from the body, as the claim states. -/
theorem C1_counterexample :
    dispatch "/x" ⟨429, "application/json", "t",
      some (.obj [("error".data,
        .obj [("code".data, .str "limit-exceeded".data),
          ("title".data, .str "x".data),
          ("description".data, .str "y".data)])])⟩ = .transportError 429
    ∧ Outcome.transportError 429 ≠ .structuredError
        ⟨.str "limit-exceeded".data, .str "x".data, .str "y".data⟩ :=
  ⟨rfl, nofun⟩

/-- C1 amended: any 403, 404 or 429 response with a JSON content type is
never short-circuited to the fixed-table gateway error — it falls through
to generic handling; for the body `\x7b"error": ...\x7d` the
structured-error construction fails on the normalized fields (they sit
under the `error` wrapper, not at top level), so the original transport
error for that status is re-raised.  A flat `code`/`title`/`description`
body would yield the structured error instead. -/
theorem C1_gateway_json_falls_through (path : String) (r : Response)
    (hst : r.statusCode = 403 ∨ r.statusCode = 404 ∨ r.statusCode = 429)
    (hct : hasSub "application/json".data r.contentType.data = true) :
    (∀ e, dispatch path r ≠ .gatewayError e)
    ∧ (r.jsonBody =
        some (.obj [("error".data,
          .obj [("code".data, .str "limit-exceeded".data),
            ("title".data, .str "x".data),
            ("description".data, .str "y".data)])]) →
      dispatch path r = .transportError r.statusCode) := by
  have hcond : ¬((r.statusCode = 403 ∨ r.statusCode = 404 ∨ r.statusCode = 429) ∧
      ¬ hasSub "application/json".data r.contentType.data = true) := by
    rintro ⟨-, hc⟩
    exact hc hct
  have h206 : ¬(r.statusCode = 206 ∧
      hasSub "/transcript".data path.data = true) := by
    rintro ⟨h, -⟩
    rcases hst with h' | h' | h' <;> omega
  have h45 : 400 ≤ r.statusCode ∧ r.statusCode < 600 := by
    rcases hst with h | h | h <;> omega
  rw [dispatch, if_neg hcond, if_neg h206, if_pos h45]
  constructor
  · intro e
    cases hb : r.jsonBody with
    | none => exact nofun
    | some j => cases hce : constructError (camelToSnake j) <;> simp [hce]
  · intro hb
    rw [hb]
    rfl

theorem C1_witness :
    dispatch "/x" ⟨429, "application/json", "t",
      some (.obj [("error".data,
        .obj [("code".data, .str "limit-exceeded".data),
          ("title".data, .str "x".data),
          ("description".data, .str "y".data)])])⟩ = .transportError 429 :=
  (C1_gateway_json_falls_through "/x" _ (Or.inr (Or.inr rfl)) (by decide)).2 rfl

/-- C7 counterexample: a 206 response on a transcript path whose body is
the JSON number `5` makes `'error' in error_data` raise a `TypeError`, so
the call fails with neither the body's error value nor the generic
"no transcript available" error that the claim requires in the absence of
an `error` field. -/
theorem C7_counterexample :
    dispatch "/youtube/transcript" ⟨206, "application/json", "5",
      some (.num 5)⟩ = .typeError
    ∧ Outcome.typeError ≠ .transcriptMsgError "No transcript available" :=
  ⟨rfl, nofun⟩

/-- C7 amended: a 206 response on a path containing `/transcript` whose
body parses as a JSON object fails with the normalized body's `error`
value when that key is present, and with the generic "No transcript
available" error otherwise.  (A body that is not a JSON object can
instead raise a `TypeError` from the membership test, as the
counterexample shows.) -/
theorem C7_transcript_206 (path : String) (r : Response)
    (kvs : List (List Char × JsonVal))
    (h206 : r.statusCode = 206)
    (hpath : hasSub "/transcript".data path.data = true)
    (hb : r.jsonBody = some (.obj kvs)) :
    dispatch path r =
      match findVal (camelObj kvs []) "error".data with
      | some v => .transcriptError v
      | none => .transcriptMsgError "No transcript available" := by
  have hcond : ¬((r.statusCode = 403 ∨ r.statusCode = 404 ∨ r.statusCode = 429) ∧
      ¬ hasSub "application/json".data r.contentType.data = true) := by
    rintro ⟨hs, -⟩
    rcases hs with h | h | h <;> omega
  rw [dispatch, if_neg hcond, if_pos ⟨h206, hpath⟩, hb]
  simp only [camelToSnake_obj, pyContains, hasKey_eq_isSome_findVal, pyGetItem]
  cases hf : findVal (camelObj kvs []) "error".data <;> simp [hf]

theorem C7_witness :
    dispatch "/youtube/transcript" ⟨206, "application/json", "",
      some (.obj [("error".data,
        .obj [("code".data, .str "no-captions".data),
          ("title".data, .str "t".data),
          ("description".data, .str "d".data)])])⟩ =
    .transcriptError (.obj [("code".data, .str "no-captions".data),
      ("title".data, .str "t".data), ("description".data, .str "d".data)]) := by
  have h := C7_transcript_206 "/youtube/transcript" ⟨206, "application/json", "",
      some (.obj [("error".data,
        .obj [("code".data, .str "no-captions".data),
          ("title".data, .str "t".data),
          ("description".data, .str "d".data)])])⟩
    [("error".data,
      .obj [("code".data, .str "no-captions".data),
        ("title".data, .str "t".data),
        ("description".data, .str "d".data)])]
    rfl (by decide) rfl
  exact h.trans (by rfl)

theorem insertKV_of_not_mem (acc : List (List Char × JsonVal))
    (k : List Char) (v : JsonVal) (h : k ∉ acc.map Prod.fst) :
    insertKV acc k v = acc ++ [(k, v)] := by
  induction acc with
  | nil => rfl
  | cons kv rest ih =>
    obtain ⟨k0, v0⟩ := kv
    simp only [List.map_cons, List.mem_cons] at h
    push_neg at h
    rw [insertKV, if_neg (fun he => h.1 he.symm), ih h.2]
    rfl

theorem camelObj_of_nodup (kvs acc : List (List Char × JsonVal))
    (hnd : (kvs.map (fun kv => convert kv.1)).Nodup)
    (hdis : ∀ kv ∈ kvs, convert kv.1 ∉ acc.map Prod.fst) :
    camelObj kvs acc =
      acc ++ kvs.map (fun kv => (convert kv.1, camelToSnake kv.2)) := by
  induction kvs generalizing acc with
  | nil => simp [camelObj]
  | cons kv rest ih =>
    obtain ⟨k, v⟩ := kv
    simp only [List.map_cons, List.nodup_cons] at hnd
    have hdis' : ∀ kv ∈ rest,
        convert kv.1 ∉ (acc ++ [(convert k, camelToSnake v)]).map Prod.fst := by
      intro kv hkv
      simp only [List.map_append, List.mem_append]
      rintro (h | h)
      · exact hdis kv (List.mem_cons_of_mem _ hkv) h
      · simp only [List.map_cons, List.map_nil, List.mem_singleton] at h
        exact hnd.1 (h ▸ List.mem_map_of_mem (fun kv => convert kv.1) hkv)
    rw [camelObj,
      insertKV_of_not_mem acc (convert k) (camelToSnake v)
        (hdis (k, v) (List.mem_cons_self _ _)),
      ih _ hnd.2 hdis']
    simp

/-- C4 counterexample: the mapping with the two distinct keys `videoId`
and `video_id` normalizes to a single-entry mapping — the converted keys
collide, the first entry's position and the second entry's value win, and
one entry is lost. -/
theorem C4_counterexample :
    camelToSnake (.obj [("videoId".data, .num 1), ("video_id".data, .num 2)])
      = .obj [("video_id".data, .num 2)]
    ∧ "videoId".data ≠ "video_id".data :=
  ⟨rfl, by decide⟩

/-- C4 amended: key normalization preserves the entry count for every
mapping whose keys are still pairwise distinct after per-key conversion;
distinct input keys that convert to the same snake-case key collide, and
the entry count drops (see the counterexample). -/
theorem C4_nodup_preserves_count (kvs : List (List Char × JsonVal))
    (hnd : (kvs.map (fun kv => convert kv.1)).Nodup) :
    (objEntries (camelToSnake (.obj kvs))).length = kvs.length := by
  rw [camelToSnake_obj, objEntries,
    camelObj_of_nodup kvs [] hnd (by intro kv hkv; simp)]
  simp

theorem C4_witness :
    (objEntries (camelToSnake (.obj [("videoId".data, .num 1),
      ("videoTitle".data, .str "Foo".data)]))).length = 2 := by
  have h := C4_nodup_preserves_count
    [("videoId".data, .num 1), ("videoTitle".data, .str "Foo".data)]
    (by decide)
  simpa using h

theorem char_toNat_ofNat {n : Nat} (h : n.isValidChar) :
    (Char.ofNat n).toNat = n := by
  rw [Char.ofNat, dif_pos h]
  rfl

theorem isLoD_eq_false_of_isUp {u : Char} (h : isUp u = true) :
    isLoD u = false := by
  simp only [isUp, decide_eq_true_eq] at h
  simp only [isLoD, isLo, Bool.or_eq_false_iff, decide_eq_false_iff_not,
    not_and, not_le]
  omega

theorem isUp_eq_false_of_isLo {c : Char} (h : isLo c = true) :
    isUp c = false := by
  simp only [isLo, decide_eq_true_eq] at h
  simp only [isUp, decide_eq_false_iff_not, not_and, not_le]
  omega

theorem isLoD_of_isLo {c : Char} (h : isLo c = true) : isLoD c = true := by
  simp [isLoD, h]

theorem isUp_toLow (c : Char) : isUp (toLow c) = false := by
  rw [toLow]
  by_cases h : isUp c = true
  · rw [if_pos h]
    have hn : 65 ≤ c.toNat ∧ c.toNat ≤ 90 := by simpa [isUp] using h
    have hv : (c.toNat + 32).isValidChar := Or.inl (by omega)
    simp only [isUp, char_toNat_ofNat hv, decide_eq_false_iff_not, not_and,
      not_le]
    intro
    omega
  · rw [if_neg h]
    exact Bool.eq_false_iff.mpr h

theorem headUp_specPassOne (s : List Char) :
    headUp (specPassOne s) = headUp s := by
  cases s with
  | nil => rfl
  | cons c cs =>
    rw [specPassOne]
    split <;> rfl

theorem headUp_scan (b : Bool) (s : List Char) :
    headUp (scan b s) = headUp s := by
  match s with
  | [] => rfl
  | [c] => rfl
  | c :: u :: rest =>
    rw [scan]
    split
    · rfl
    · split <;> rfl

theorem sub2_eq_specPassTwo (s : List Char) : sub2 s = specPassTwo s := by
  have main : ∀ n, ∀ t : List Char, t.length ≤ n → sub2 t = specPassTwo t := by
    intro n
    induction n with
    | zero =>
      intro t ht
      match t with
      | [] => rfl
      | c :: cs => simp at ht
    | succ n ih =>
      intro t ht
      match t with
      | [] => rfl
      | [c] => simp [sub2, specPassTwo, headUp]
      | c :: u :: rest =>
        rw [sub2, specPassTwo]
        by_cases h : (isLoD c && isUp u) = true
        · have hcond : (isLoD c && headUp (u :: rest)) = true := h
          rw [if_pos h, if_pos hcond, specPassTwo]
          have hu : (isLoD u && headUp rest) = false := by
            rw [isLoD_eq_false_of_isUp ((Bool.and_eq_true _ _).mp h).2]
            rfl
          rw [if_neg (by simp [hu])]
          have hlen : rest.length ≤ n := by
            simp only [List.length_cons] at ht
            omega
          rw [ih rest hlen]
        · have hcond : ¬(isLoD c && headUp (u :: rest)) = true := h
          rw [if_neg h, if_neg hcond]
          have hlen : (u :: rest).length ≤ n := by
            simp only [List.length_cons] at ht
            simp only [List.length_cons]
            omega
          rw [ih (u :: rest) hlen]
  exact main s.length s le_rfl

theorem scan_false_eq_of_not_lo {c : Char} (cs : List Char)
    (h : isLo c = false) : scan false (c :: cs) = scan true (c :: cs) := by
  cases cs with
  | nil => rfl
  | cons u rest => simp [scan, h]

theorem scan_false_eq (s : List Char) :
    scan false s = s.takeWhile isLo ++ scan true (s.dropWhile isLo) := by
  induction s with
  | nil => rfl
  | cons c cs ih =>
    by_cases h : isLo c = true
    · have h1 : scan false (c :: cs) = c :: scan false cs := by
        cases cs with
        | nil => rfl
        | cons u rest => simp [scan, h]
      rw [h1, ih, List.takeWhile_cons_of_pos h, List.dropWhile_cons_of_pos h]
      rfl
    · have hf : isLo c = false := Bool.eq_false_iff.mpr h
      rw [scan_false_eq_of_not_lo cs hf, List.takeWhile_cons_of_neg h,
        List.dropWhile_cons_of_neg h]
      rfl

theorem headUp_append_of_lo (rs T : List Char)
    (hrs : ∀ c ∈ rs, isLo c = true) (hT : headUp T = false) :
    headUp (rs ++ T) = false := by
  cases rs with
  | nil => exact hT
  | cons d rs' =>
    simp only [List.cons_append]
    exact isUp_eq_false_of_isLo (hrs d (List.mem_cons_self _ _))

theorem capWordStart_eq_false_of_headUp (l : List Char)
    (h : headUp l = false) : capWordStart l = false := by
  match l with
  | [] => rfl
  | [u] => rfl
  | u :: d :: rest =>
    rw [capWordStart]
    rw [headUp] at h
    rw [h]
    rfl

theorem specPassTwo_append_lo_of_headUp_false (run T : List Char)
    (hrun : ∀ c ∈ run, isLo c = true) (hT : headUp T = false) :
    specPassTwo (run ++ T) = run ++ specPassTwo T := by
  induction run with
  | nil => rfl
  | cons c rs ih =>
    have hrs : ∀ x ∈ rs, isLo x = true :=
      fun x hx => hrun x (List.mem_cons_of_mem _ hx)
    have hh : headUp (rs ++ T) = false := headUp_append_of_lo rs T hrs hT
    have hcond : (isLoD c && headUp (rs ++ T)) = false := by
      rw [hh, Bool.and_false]
    rw [List.cons_append, specPassTwo, hcond, if_neg Bool.false_ne_true,
      ih hrs, List.cons_append]

theorem specPassTwo_append_lo_of_headUp_true (run T : List Char)
    (hrun : ∀ c ∈ run, isLo c = true) (hne : run ≠ [])
    (hT : headUp T = true) :
    specPassTwo (run ++ T) = run ++ '_' :: specPassTwo T := by
  induction run with
  | nil => exact absurd rfl hne
  | cons c rs ih =>
    have hc : isLo c = true := hrun c (List.mem_cons_self _ _)
    have hrs : ∀ x ∈ rs, isLo x = true :=
      fun x hx => hrun x (List.mem_cons_of_mem _ hx)
    cases rs with
    | nil =>
      have hcond : (isLoD c && headUp T) = true := by
        rw [hT, Bool.and_true]
        exact isLoD_of_isLo hc
      rw [List.singleton_append, specPassTwo, hcond, if_pos rfl,
        List.singleton_append]
    | cons d rs' =>
      have hh : headUp ((d :: rs') ++ T) = false := by
        rw [List.cons_append]
        exact isUp_eq_false_of_isLo (hrs d (List.mem_cons_self _ _))
      have hcond : (isLoD c && headUp ((d :: rs') ++ T)) = false := by
        rw [hh, Bool.and_false]
      rw [List.cons_append, specPassTwo, hcond,
        if_neg Bool.false_ne_true, ih hrs (by simp)]
      simp

theorem combined_append_lo_of_headUp_false (run T : List Char)
    (hrun : ∀ c ∈ run, isLo c = true) (hT : headUp T = false) :
    combined (run ++ T) = run ++ combined T := by
  induction run with
  | nil => rfl
  | cons c rs ih =>
    have hrs : ∀ x ∈ rs, isLo x = true :=
      fun x hx => hrun x (List.mem_cons_of_mem _ hx)
    have hh : headUp (rs ++ T) = false := headUp_append_of_lo rs T hrs hT
    have hcw : capWordStart (rs ++ T) = false :=
      capWordStart_eq_false_of_headUp _ hh
    have hcond : ((isLoD c && headUp (rs ++ T)) ||
        (capWordStart (rs ++ T) && (c != '\n'))) = false := by
      rw [hh, hcw, Bool.and_false, Bool.false_and, Bool.or_false]
    rw [List.cons_append, combined, hcond, if_neg Bool.false_ne_true,
      ih hrs, List.cons_append]

theorem combined_append_lo_of_headUp_true (run T : List Char)
    (hrun : ∀ c ∈ run, isLo c = true) (hne : run ≠ [])
    (hT : headUp T = true) :
    combined (run ++ T) = run ++ '_' :: combined T := by
  induction run with
  | nil => exact absurd rfl hne
  | cons c rs ih =>
    have hc : isLo c = true := hrun c (List.mem_cons_self _ _)
    have hrs : ∀ x ∈ rs, isLo x = true :=
      fun x hx => hrun x (List.mem_cons_of_mem _ hx)
    cases rs with
    | nil =>
      have hcond : ((isLoD c && headUp T) ||
          (capWordStart T && (c != '\n'))) = true := by
        rw [hT, Bool.and_true, isLoD_of_isLo hc, Bool.true_or]
      rw [List.singleton_append, combined, hcond, if_pos rfl,
        List.singleton_append]
    | cons d rs' =>
      have hh : headUp ((d :: rs') ++ T) = false := by
        rw [List.cons_append]
        exact isUp_eq_false_of_isLo (hrs d (List.mem_cons_self _ _))
      have hcw : capWordStart ((d :: rs') ++ T) = false :=
        capWordStart_eq_false_of_headUp _ hh
      have hcond : ((isLoD c && headUp ((d :: rs') ++ T)) ||
          (capWordStart ((d :: rs') ++ T) && (c != '\n'))) = false := by
        rw [hh, hcw, Bool.and_false, Bool.false_and, Bool.or_false]
      rw [List.cons_append, combined, hcond,
        if_neg Bool.false_ne_true, ih hrs (by simp)]
      simp

theorem specPassTwo_specPassOne_eq_combined (s : List Char) :
    specPassTwo (specPassOne s) = combined s := by
  induction s with
  | nil => rfl
  | cons c cs ih =>
    by_cases h1 : (capWordStart cs && (c != '\n')) = true
    · rw [specPassOne, if_pos h1]
      have hcond1 : (isLoD c && headUp ('_' :: specPassOne cs)) = false := by
        show (isLoD c && isUp '_') = false
        have h : isUp '_' = false := by decide
        rw [h, Bool.and_false]
      rw [specPassTwo, hcond1, if_neg Bool.false_ne_true]
      have hcond2 : (isLoD '_' && headUp (specPassOne cs)) = false := by
        have h : isLoD '_' = false := by decide
        rw [h, Bool.false_and]
      rw [specPassTwo, hcond2, if_neg Bool.false_ne_true, ih]
      have hcomb : ((isLoD c && headUp cs) ||
          (capWordStart cs && (c != '\n'))) = true := by
        rw [h1, Bool.or_true]
      rw [combined, hcomb, if_pos rfl]
    · have h1f : (capWordStart cs && (c != '\n')) = false :=
        Bool.eq_false_iff.mpr h1
      rw [specPassOne, if_neg h1, specPassTwo, headUp_specPassOne, ih,
        combined, h1f, Bool.or_false]

theorem length_dropWhile_le (p : Char → Bool) (l : List Char) :
    (l.dropWhile p).length ≤ l.length := by
  induction l with
  | nil => simp
  | cons a t ih =>
    by_cases h : p a = true
    · rw [List.dropWhile_cons_of_pos h]
      simp only [List.length_cons]
      omega
    · rw [List.dropWhile_cons_of_neg h]

theorem specPassTwo_scan_eq_combined (s : List Char) :
    specPassTwo (scan true s) = combined s := by
  have main : ∀ n, ∀ t : List Char, t.length ≤ n →
      specPassTwo (scan true t) = combined t := by
    intro n
    induction n with
    | zero =>
      intro t ht
      match t with
      | [] => rfl
      | c :: cs => simp at ht
    | succ n ih =>
      intro t ht
      match t with
      | [] => rfl
      | [c] =>
        show specPassTwo [c] = combined [c]
        simp [specPassTwo, combined, headUp, capWordStart]
      | [c, u] =>
        have hscan : scan true [c, u] = [c, u] := by
          simp [scan, headLo]
        rw [hscan]
        simp [specPassTwo, combined, headUp, capWordStart]
      | c :: u :: d :: rest2 =>
        have hfree : (!true && isLo c) = false := by
          rw [Bool.not_true, Bool.false_and]
        rw [scan, hfree, if_neg Bool.false_ne_true]
        by_cases hm : (c != '\n' && isUp u && headLo (d :: rest2)) = true
        · obtain ⟨hcn, hu, hd0⟩ :
              (c != '\n') = true ∧ isUp u = true ∧ headLo (d :: rest2) = true := by
            simpa [Bool.and_eq_true, and_assoc] using hm
          have hd : isLo d = true := hd0
          rw [if_pos hm, scan_false_eq]
          have hrun_lo : ∀ x ∈ (d :: rest2).takeWhile isLo, isLo x = true :=
            fun x hx => List.mem_takeWhile_imp hx
          have hrun_ne : (d :: rest2).takeWhile isLo ≠ [] := by
            rw [List.takeWhile_cons_of_pos hd]
            simp
          have hsplit : (d :: rest2).takeWhile isLo ++ (d :: rest2).dropWhile isLo
              = d :: rest2 := List.takeWhile_append_dropWhile isLo (d :: rest2)
          have s1 : (isLoD c && headUp ('_' :: u ::
              ((d :: rest2).takeWhile isLo ++
                scan true ((d :: rest2).dropWhile isLo)))) = false := by
            show (isLoD c && isUp '_') = false
            have h : isUp '_' = false := by decide
            rw [h, Bool.and_false]
          rw [specPassTwo, s1, if_neg Bool.false_ne_true]
          have s2 : (isLoD '_' && headUp (u ::
              ((d :: rest2).takeWhile isLo ++
                scan true ((d :: rest2).dropWhile isLo)))) = false := by
            have h : isLoD '_' = false := by decide
            rw [h, Bool.false_and]
          rw [specPassTwo, s2, if_neg Bool.false_ne_true]
          have s3 : (isLoD u && headUp ((d :: rest2).takeWhile isLo ++
              scan true ((d :: rest2).dropWhile isLo))) = false := by
            rw [isLoD_eq_false_of_isUp hu, Bool.false_and]
          rw [specPassTwo, s3, if_neg Bool.false_ne_true]
          have hcond : ((isLoD c && headUp (u :: d :: rest2)) ||
              (capWordStart (u :: d :: rest2) && (c != '\n'))) = true := by
            have hcw : capWordStart (u :: d :: rest2) = true := by
              show (isUp u && isLo d) = true
              rw [hu, hd]
              rfl
            rw [hcw, hcn, Bool.and_true, Bool.or_true]
          rw [combined, hcond, if_pos rfl]
          have hcond2 : ((isLoD u && headUp (d :: rest2)) ||
              (capWordStart (d :: rest2) && (u != '\n'))) = false := by
            have hcw2 : capWordStart (d :: rest2) = false :=
              capWordStart_eq_false_of_headUp _ (isUp_eq_false_of_isLo hd)
            rw [isLoD_eq_false_of_isUp hu, Bool.false_and, hcw2,
              Bool.false_and, Bool.or_false]
          rw [combined, hcond2, if_neg Bool.false_ne_true]
          conv_rhs => rw [← hsplit]
          have hlen : ((d :: rest2).dropWhile isLo).length ≤ n := by
            have h1 : (d :: rest2).dropWhile isLo = rest2.dropWhile isLo := by
              rw [List.dropWhile_cons_of_pos hd]
            have h2 : (rest2.dropWhile isLo).length ≤ rest2.length :=
              length_dropWhile_le _ _
            simp only [List.length_cons] at ht
            rw [h1]
            omega
          by_cases hup : headUp ((d :: rest2).dropWhile isLo) = true
          · rw [specPassTwo_append_lo_of_headUp_true _ _ hrun_lo hrun_ne
                (by rw [headUp_scan]; exact hup),
              combined_append_lo_of_headUp_true _ _ hrun_lo hrun_ne hup,
              ih _ hlen]
          · have hupf : headUp ((d :: rest2).dropWhile isLo) = false :=
              Bool.eq_false_iff.mpr hup
            rw [specPassTwo_append_lo_of_headUp_false _ _ hrun_lo
                (by rw [headUp_scan]; exact hupf),
              combined_append_lo_of_headUp_false _ _ hrun_lo hupf,
              ih _ hlen]
        · rw [if_neg hm]
          have hlen2 : (u :: d :: rest2).length ≤ n := by
            simp only [List.length_cons] at ht
            simp only [List.length_cons]
            omega
          have hsec : (capWordStart (u :: d :: rest2) && (c != '\n')) = false := by
            have hcw : capWordStart (u :: d :: rest2) = (isUp u && isLo d) := rfl
            rw [hcw]
            cases hcn : (c != '\n') with
            | false => rw [Bool.and_false]
            | true =>
              cases hu : isUp u with
              | false => rw [Bool.false_and, Bool.false_and]
              | true =>
                cases hd : isLo d with
                | false => rw [Bool.and_false, Bool.false_and]
                | true =>
                  exfalso
                  apply hm
                  have hhl : headLo (d :: rest2) = true := hd
                  rw [hcn, hu, hhl]
                  rfl
          rw [specPassTwo, headUp_scan, combined, hsec, Bool.or_false,
            ih _ hlen2]
  exact main s.length s le_rfl

/-- C3: for every key string, the source's per-key `convert` (sequential
non-overlapping `re.sub` passes) produces exactly the reference two-pass
rule of the spec: simultaneously separate every capitalized multi-letter
word from the preceding character, then separate every
lowercase-or-digit/uppercase transition, then lowercase everything. -/
theorem C3_convert_eq_reference (s : List Char) : convert s = convertSpec s := by
  rw [convert, convertSpec, sub1, sub2_eq_specPassTwo,
    specPassTwo_scan_eq_combined, specPassTwo_specPassOne_eq_combined]

theorem scan_fixed_of_noUp (b : Bool) (s : List Char)
    (h : ∀ c ∈ s, isUp c = false) : scan b s = s := by
  induction s generalizing b with
  | nil => rfl
  | cons c cs ih =>
    cases cs with
    | nil => rfl
    | cons u rest =>
      have hu : isUp u = false := h u (by simp)
      have hcs : ∀ x ∈ u :: rest, isUp x = false :=
        fun x hx => h x (List.mem_cons_of_mem _ hx)
      have hm : (c != '\n' && isUp u && headLo rest) = false := by
        rw [hu, Bool.and_false, Bool.false_and]
      rw [scan]
      by_cases hf : (!b && isLo c) = true
      · rw [if_pos hf, ih false hcs]
      · rw [if_neg hf, hm, if_neg Bool.false_ne_true, ih true hcs]

theorem sub2_fixed_of_noUp (s : List Char)
    (h : ∀ c ∈ s, isUp c = false) : sub2 s = s := by
  induction s with
  | nil => rfl
  | cons c cs ih =>
    cases cs with
    | nil => rfl
    | cons u rest =>
      have hu : isUp u = false := h u (by simp)
      have hcs : ∀ x ∈ u :: rest, isUp x = false :=
        fun x hx => h x (List.mem_cons_of_mem _ hx)
      have hm : (isLoD c && isUp u) = false := by
        rw [hu, Bool.and_false]
      rw [sub2, hm, if_neg Bool.false_ne_true, ih hcs]

theorem map_toLow_fixed_of_noUp (s : List Char)
    (h : ∀ c ∈ s, isUp c = false) : s.map toLow = s := by
  induction s with
  | nil => rfl
  | cons c cs ih =>
    have hc : toLow c = c := by
      rw [toLow, h c (by simp)]
      rfl
    rw [List.map_cons, hc, ih (fun x hx => h x (List.mem_cons_of_mem _ hx))]

theorem convert_noUp (s : List Char) : ∀ c ∈ convert s, isUp c = false := by
  intro c hc
  rw [convert] at hc
  obtain ⟨x, -, hx⟩ := List.mem_map.mp hc
  rw [← hx]
  exact isUp_toLow x

theorem convert_idem (s : List Char) : convert (convert s) = convert s := by
  have h := convert_noUp s
  conv_lhs => rw [convert, sub1, scan_fixed_of_noUp true _ h,
    sub2_fixed_of_noUp _ h, map_toLow_fixed_of_noUp _ h]

theorem insertKV_mem (acc : List (List Char × JsonVal)) (k : List Char)
    (v : JsonVal) :
    ∀ kv ∈ insertKV acc k v, kv = (k, v) ∨ kv ∈ acc := by
  induction acc with
  | nil =>
    intro kv hkv
    rw [insertKV] at hkv
    left
    simpa using hkv
  | cons kv0 rest ih =>
    obtain ⟨k0, v0⟩ := kv0
    intro kv hkv
    rw [insertKV] at hkv
    by_cases h : k0 = k
    · rw [if_pos h] at hkv
      rcases List.mem_cons.mp hkv with h1 | h1
      · left
        rw [h1, h]
      · right
        exact List.mem_cons_of_mem _ h1
    · rw [if_neg h] at hkv
      rcases List.mem_cons.mp hkv with h1 | h1
      · right
        rw [h1]
        exact List.mem_cons_self _ _
      · rcases ih kv h1 with h2 | h2
        · left
          exact h2
        · right
          exact List.mem_cons_of_mem _ h2

theorem camelObj_mem (kvs : List (List Char × JsonVal)) :
    ∀ acc, ∀ kv ∈ camelObj kvs acc,
      (∃ kv0 ∈ kvs, kv.1 = convert kv0.1 ∧ kv.2 = camelToSnake kv0.2) ∨
        kv ∈ acc := by
  induction kvs with
  | nil =>
    intro acc kv hkv
    rw [camelObj] at hkv
    right
    exact hkv
  | cons kv0 rest ih =>
    obtain ⟨k, v⟩ := kv0
    intro acc kv hkv
    rw [camelObj] at hkv
    rcases ih _ kv hkv with h | h
    · left
      obtain ⟨kv1, hkv1, h1, h2⟩ := h
      exact ⟨kv1, List.mem_cons_of_mem _ hkv1, h1, h2⟩
    · rcases insertKV_mem _ _ _ kv h with h1 | h1
      · left
        exact ⟨(k, v), List.mem_cons_self _ _, by rw [h1], by rw [h1]⟩
      · right
        exact h1

theorem insertKV_map_fst (acc : List (List Char × JsonVal)) (k : List Char)
    (v : JsonVal) :
    (insertKV acc k v).map Prod.fst =
      if k ∈ acc.map Prod.fst then acc.map Prod.fst
      else acc.map Prod.fst ++ [k] := by
  induction acc with
  | nil => simp [insertKV]
  | cons kv0 rest ih =>
    obtain ⟨k0, v0⟩ := kv0
    rw [insertKV]
    by_cases h : k0 = k
    · rw [if_pos h]
      have hmem : k ∈ ((k0, v0) :: rest).map Prod.fst := by
        rw [List.map_cons, ← h]
        exact List.mem_cons_self _ _
      rw [if_pos hmem]
      simp
    · rw [if_neg h]
      simp only [List.map_cons]
      rw [ih]
      by_cases h2 : k ∈ rest.map Prod.fst
      · rw [if_pos h2, if_pos (List.mem_cons_of_mem _ h2)]
      · rw [if_neg h2, if_neg (by
          intro hmem
          rcases List.mem_cons.mp hmem with h3 | h3
          · exact h h3.symm
          · exact h2 h3)]
        simp

theorem insertKV_keys_nodup (acc : List (List Char × JsonVal)) (k : List Char)
    (v : JsonVal) (h : (acc.map Prod.fst).Nodup) :
    ((insertKV acc k v).map Prod.fst).Nodup := by
  rw [insertKV_map_fst]
  by_cases h2 : k ∈ acc.map Prod.fst
  · rw [if_pos h2]
    exact h
  · rw [if_neg h2]
    rw [List.nodup_append]
    refine ⟨h, List.nodup_singleton _, ?_⟩
    intro a ha hak
    rw [List.mem_singleton] at hak
    exact h2 (hak ▸ ha)

theorem camelObj_keys_nodup (kvs : List (List Char × JsonVal)) :
    ∀ acc, (acc.map Prod.fst).Nodup →
      ((camelObj kvs acc).map Prod.fst).Nodup := by
  induction kvs with
  | nil =>
    intro acc h
    rw [camelObj]
    exact h
  | cons kv0 rest ih =>
    obtain ⟨k, v⟩ := kv0
    intro acc h
    rw [camelObj]
    exact ih _ (insertKV_keys_nodup _ _ _ h)

theorem camelObj_fixed (l : List (List Char × JsonVal)) :
    ∀ acc, (∀ kv ∈ l, convert kv.1 = kv.1 ∧ camelToSnake kv.2 = kv.2) →
      ((acc ++ l).map Prod.fst).Nodup → camelObj l acc = acc ++ l := by
  induction l with
  | nil =>
    intro acc _ _
    rw [camelObj]
    simp
  | cons kv0 rest ih =>
    obtain ⟨k, v⟩ := kv0
    intro acc hfix hnd
    have hk : convert k = k := (hfix (k, v) (List.mem_cons_self _ _)).1
    have hv : camelToSnake v = v := (hfix (k, v) (List.mem_cons_self _ _)).2
    have hknotin : k ∉ acc.map Prod.fst := by
      intro hmem
      rw [List.map_append, List.nodup_append] at hnd
      exact hnd.2.2 hmem (by
        rw [List.map_cons]
        exact List.mem_cons_self _ _)
    have happ : (acc ++ [(k, v)]) ++ rest = acc ++ (k, v) :: rest := by
      simp
    rw [camelObj, hk, hv, insertKV_of_not_mem acc k v hknotin,
      ih _ (fun kv hkv => hfix kv (List.mem_cons_of_mem _ hkv))
        (by rw [happ]; exact hnd),
      happ]

theorem camelArr_idem_of (ys : List JsonVal)
    (h : ∀ x ∈ ys, camelToSnake (camelToSnake x) = camelToSnake x) :
    camelArr (camelArr ys) = camelArr ys := by
  induction ys with
  | nil => rfl
  | cons x xs ih =>
    rw [camelArr, camelArr, h x (List.mem_cons_self _ _),
      ih (fun y hy => h y (List.mem_cons_of_mem _ hy))]

/-- C2: key normalization is idempotent on every nested JSON document:
applying `_camel_to_snake` twice yields the same value as applying it
once. -/
theorem C2_normalization_idempotent (v : JsonVal) :
    camelToSnake (camelToSnake v) = camelToSnake v := by
  have main : ∀ n, ∀ w : JsonVal, sizeOf w ≤ n →
      camelToSnake (camelToSnake w) = camelToSnake w := by
    intro n
    induction n with
    | zero =>
      intro w hw
      cases w <;> simp at hw
    | succ n ih =>
      intro w hw
      cases w with
      | null => rfl
      | bool b => rfl
      | num m => rfl
      | str s => rfl
      | arr xs =>
        rw [camelToSnake, camelToSnake]
        rw [camelArr_idem_of xs (fun x hx => by
          apply ih
          have h1 : sizeOf x < sizeOf xs := List.sizeOf_lt_of_mem hx
          have h2 : sizeOf (JsonVal.arr xs) = 1 + sizeOf xs := by simp
          omega)]
      | obj kvs =>
        rw [camelToSnake, camelToSnake]
        have hfix : ∀ kv ∈ camelObj kvs [], convert kv.1 = kv.1 ∧
            camelToSnake kv.2 = kv.2 := by
          intro kv hkv
          rcases camelObj_mem kvs [] kv hkv with h | h
          · obtain ⟨kv0, hkv0, h1, h2⟩ := h
            constructor
            · rw [h1]
              exact convert_idem _
            · rw [h2]
              apply ih
              have m1 : sizeOf kv0 < sizeOf kvs := List.sizeOf_lt_of_mem hkv0
              have m2 : sizeOf kv0.2 ≤ sizeOf kv0 := by
                obtain ⟨a, b⟩ := kv0
                simp
              have m3 : sizeOf (JsonVal.obj kvs) = 1 + sizeOf kvs := by simp
              omega
          · simp at h
        have hnd : (([] ++ camelObj kvs []).map Prod.fst).Nodup := by
          simp only [List.nil_append]
          exact camelObj_keys_nodup kvs [] (by simp)
        rw [camelObj_fixed (camelObj kvs []) [] hfix hnd]
        rfl
  exact main (sizeOf v) v le_rfl
